import Mathlib

/-
Verification of the symbol-extraction engine of `gitsplain`
(`src/gitsplain/services/ast_parser.py`), as a shallow embedding in Lean 4.

Modelling conventions:
* tree-sitter syntax trees are embedded as the inductive `TSNode`
  (node type string, node text, start row, children).
* The external `tree_sitter_language_pack.get_parser` library call is a
  parameter `GrammarEnv : String → Option ParserH`; `none` models the call
  raising an exception.  A parser handle `ParserH : String → Option TSNode`
  maps file content to a parse tree; `none` models `parser.parse` raising.
* The per-instance mutable parser cache `ASTParser._parsers` is threaded
  explicitly as `ParserState`.
* Python `str` is `String`, `len`/slicing count code points exactly as
  Python's do; machine integers do not occur in this code.
* Fallible operations return `Option`; all functions are total, which is
  the embedding of "no exception propagates".
-/

namespace Gitsplain

/-- Embedding of a tree-sitter syntax-tree node: node-type tag, source text
of the node, 0-indexed start row (`start_point[0]`), and children in
document order. -/
inductive TSNode where
  | mk (ty : String) (text : String) (row : Nat) (children : List TSNode)

/-- The node-type tag (`node.type` in the Python source). -/
def TSNode.ty : TSNode → String
  | .mk t _ _ _ => t

/-- The decoded node text (`node.text.decode("utf-8")`). -/
def TSNode.text : TSNode → String
  | .mk _ x _ _ => x

/-- The 0-indexed start row (`node.start_point[0]`). -/
def TSNode.row : TSNode → Nat
  | .mk _ _ r _ => r

/-- The children in document order (`node.children`). -/
def TSNode.children : TSNode → List TSNode
  | .mk _ _ _ cs => cs

/-- A parser handle: content to parse tree; `none` models a parse exception. -/
def ParserH : Type := String → Option TSNode

/-- The external grammar library (`get_parser`); `none` models the
construction raising an exception for an unsupported grammar. -/
def GrammarEnv : Type := String → Option ParserH

/-- `EXTENSION_TO_LANGUAGE` from the source: file extension to tree-sitter
language name, as an insertion-ordered association list (Python dict). -/
def EXTENSION_TO_LANGUAGE : List (String × String) := [
  (".py", "python"),
  (".pyi", "python"),
  (".js", "javascript"),
  (".jsx", "javascript"),
  (".ts", "typescript"),
  (".tsx", "tsx"),
  (".go", "go"),
  (".rs", "rust"),
  (".java", "java"),
  (".kt", "kotlin"),
  (".c", "c"),
  (".h", "c"),
  (".cpp", "cpp"),
  (".hpp", "cpp"),
  (".cc", "cpp"),
  (".cs", "c_sharp"),
  (".rb", "ruby"),
  (".php", "php"),
  (".swift", "swift"),
  (".scala", "scala")]

/-- `CLASS_NODE_TYPES` from the source: tree-sitter node types for
classes/structs/interfaces by language (sets embedded as lists). -/
def CLASS_NODE_TYPES : List (String × List String) := [
  ("python", ["class_definition"]),
  ("javascript", ["class_declaration"]),
  ("typescript", ["class_declaration", "interface_declaration",
    "type_alias_declaration"]),
  ("tsx", ["class_declaration", "interface_declaration",
    "type_alias_declaration"]),
  ("go", ["type_declaration"]),
  ("rust", ["struct_item", "trait_item"]),
  ("java", ["class_declaration", "interface_declaration"]),
  ("kotlin", ["class_declaration", "object_declaration",
    "interface_declaration"]),
  ("c", ["struct_specifier"]),
  ("cpp", ["class_specifier", "struct_specifier"]),
  ("c_sharp", ["class_declaration", "interface_declaration",
    "struct_declaration"]),
  ("ruby", ["class"]),
  ("php", ["class_declaration", "interface_declaration",
    "trait_declaration"]),
  ("swift", ["class_declaration", "struct_declaration",
    "protocol_declaration"]),
  ("scala", ["class_definition", "object_definition", "trait_definition"])]

/-- `FUNCTION_NODE_TYPES` from the source: tree-sitter node types for
functions/methods by language. -/
def FUNCTION_NODE_TYPES : List (String × List String) := [
  ("python", ["function_definition"]),
  ("javascript", ["function_declaration", "arrow_function",
    "method_definition"]),
  ("typescript", ["function_declaration", "arrow_function",
    "method_definition"]),
  ("tsx", ["function_declaration", "arrow_function", "method_definition"]),
  ("go", ["function_declaration", "method_declaration"]),
  ("rust", ["function_item"]),
  ("java", ["method_declaration", "constructor_declaration"]),
  ("kotlin", ["function_declaration"]),
  ("c", ["function_definition"]),
  ("cpp", ["function_definition"]),
  ("c_sharp", ["method_declaration", "constructor_declaration"]),
  ("ruby", ["method", "singleton_method"]),
  ("php", ["function_definition", "method_declaration"]),
  ("swift", ["function_declaration"]),
  ("scala", ["function_definition"])]

/-- The `Symbol` dataclass from the source. -/
structure Symbol where
  name : String
  kind : String
  line : Nat
  filepath : String
  language : String
  docstring : Option String
deriving DecidableEq, Repr

/-- `TEST_DIR_PATTERNS` from the source (case-insensitive directory names). -/
def TEST_DIR_PATTERNS : List String :=
  ["test", "tests", "__tests__", "spec", "specs", "testing"]

/-- `TEST_FILE_PATTERNS` from the source: test file patterns by extension. -/
def TEST_FILE_PATTERNS : List (String × List String) := [
  (".py", ["test_", "_test.py", "conftest.py"]),
  (".js", [".test.js", ".spec.js", "_test.js"]),
  (".jsx", [".test.jsx", ".spec.jsx"]),
  (".ts", [".test.ts", ".spec.ts", "_test.ts"]),
  (".tsx", [".test.tsx", ".spec.tsx"]),
  (".go", ["_test.go"]),
  (".rs", ["_test.rs"]),
  (".java", ["Test.java", "Tests.java"]),
  (".kt", ["Test.kt", "Tests.kt"]),
  (".rb", ["_spec.rb", "_test.rb"]),
  (".php", ["Test.php", "Tests.php"]),
  (".cs", ["Tests.cs", "Test.cs"]),
  (".swift", ["Tests.swift", "Test.swift"]),
  (".scala", ["Test.scala", "Spec.scala"])]

/-- Split a character list at every occurrence of `sep` (the semantics of
Python `str.split(sep)` / `String.splitOn` for a one-character
separator), written by direct recursion so it evaluates in the kernel. -/
def splitChar (sep : Char) : List Char → List (List Char)
  | [] => [[]]
  | c :: rest =>
    match splitChar sep rest with
    | [] => [[]]
    | g :: gs => if c == sep then [] :: g :: gs else (c :: g) :: gs

/-- Model of Python `str.lower()` (ASCII case folding, which covers every
string this code compares). -/
def pyLower (s : String) : String :=
  String.mk (s.toList.map Char.toLower)

/-- Model of Python `str.startswith(p)`. -/
def pyStartsWith (s p : String) : Bool :=
  p.toList.isPrefixOf s.toList

/-- Model of Python `str.endswith(p)`. -/
def pyEndsWith (s p : String) : Bool :=
  p.toList.isSuffixOf s.toList

/-- Model of Python `s[:n]` (first `n` code points). -/
def pyTake (s : String) (n : Nat) : String :=
  String.mk (s.toList.take n)

/-- Model of `pathlib.Path(p).parts` for POSIX relative paths: split on
`/`, dropping empty segments and `.` segments (which pathlib normalizes
away).  The root segment of absolute paths is also dropped; it is never a
test-directory name, so `is_test_file` is unaffected. -/
def pyParts (path : String) : List String :=
  ((splitChar '/' path.toList).map String.mk).filter
    (fun s => !(s == "" || s == "."))

/-- Model of `pathlib.Path(p).name`: the final path segment. -/
def pyName (path : String) : String :=
  (pyParts path).getLastD ""

/-- Model of `pathlib.PurePath.suffix` computed from the name, following
CPython: the substring from the last dot, provided that dot is neither the
first nor the last character of the name. -/
def pySuffixOfName (name : String) : String :=
  let cs := name.toList
  match (cs.reverse.findIdx? (fun c => c == '.')) with
  | none => ""
  | some j =>
    let i := cs.length - 1 - j
    if 0 < i && i < cs.length - 1 then String.mk (cs.drop i) else ""

/-- Python's whitespace set for `str.strip()` (ASCII part: space, tab,
newline, carriage return, vertical tab, form feed). -/
def pyIsSpace (c : Char) : Bool :=
  c == ' ' || c == '\t' || c == '\n' || c == '\r' ||
    c == Char.ofNat 11 || c == Char.ofNat 12

/-- Strip all characters satisfying `p` from both ends of a string, the
semantics of Python's `str.strip`. -/
def stripWhile (p : Char → Bool) (s : String) : String :=
  String.mk (((s.toList.dropWhile p).reverse.dropWhile p).reverse)

/-- `str.strip()` (whitespace strip). -/
def pyStrip (s : String) : String :=
  stripWhile pyIsSpace s

/-- `str.strip(chars)` for a one-character set. -/
def pyStripChar (ch : Char) (s : String) : String :=
  stripWhile (fun c => c == ch) s

/-- The per-instance parser cache `ASTParser._parsers` (a Python dict in
insertion order, mapping language name to parser handle). -/
structure ParserState where
  parsers : List (String × ParserH)

/-- Result of one `_get_parser` call: the returned handle, the cache
afterwards, and whether the library constructor `get_parser` was invoked
during the call (instrumentation marking exactly the `get_parser(...)`
call site in the source). -/
structure GetParserOut where
  parserH : Option ParserH
  state : ParserState
  attempted : Bool

/-- `ASTParser._get_parser`: on a cache miss, call the library constructor;
on success store the handle, on failure log and return `None` — note the
source stores nothing in the failure branch. -/
def getParser (env : GrammarEnv) (st : ParserState) (language : String) :
    GetParserOut :=
  match st.parsers.lookup language with
  | some p => ⟨some p, st, false⟩
  | none =>
    match env language with
    | some p => ⟨some p, ⟨st.parsers ++ [(language, p)]⟩, true⟩
    | none => ⟨none, st, true⟩

/-- `ASTParser.detect_language`: language from the lowercased file
extension. -/
def detectLanguage (filePath : String) : Option String :=
  EXTENSION_TO_LANGUAGE.lookup (pyLower (pySuffixOfName (pyName filePath)))

/-- `ASTParser._is_test_file`: any path segment is a test directory name
(case-insensitive), or the filename matches a per-extension pattern by
`endswith(p)` or `startswith(p.lstrip("."))`. -/
def isTestFile (filePath : String) : Bool :=
  if (pyParts filePath).any
      (fun part => TEST_DIR_PATTERNS.contains (pyLower part)) then
    true
  else
    let name := pyName filePath
    let ext := pyLower (pySuffixOfName name)
    let patterns := (TEST_FILE_PATTERNS.lookup ext).getD []
    patterns.any (fun p =>
      pyEndsWith name p ||
        pyStartsWith name (String.mk (p.toList.dropWhile (fun c => c == '.'))))

/-- The name-bearing child types scanned by `ASTParser._get_name`. -/
def nameFieldTypes : List String :=
  ["name", "identifier", "property_identifier", "type_identifier"]

/-- The child scan of `ASTParser._get_name`: first child whose type is a
name field wins; a `type_spec` child is searched one level deeper for a
`type_identifier` (the Go special case). -/
def getNameFromChildren : List TSNode → Option String
  | [] => none
  | child :: rest =>
    if nameFieldTypes.contains child.ty then some child.text
    else if child.ty == "type_spec" then
      match child.children.find? (fun sub => sub.ty == "type_identifier") with
      | some sub => some sub.text
      | none => getNameFromChildren rest
    else getNameFromChildren rest

/-- `ASTParser._get_name` (the `language` argument is unused in the
source as well). -/
def getName (node : TSNode) (language : String) : Option String :=
  getNameFromChildren node.children

/-- The `kind_map` lookup table in `ASTParser._normalize_kind`. -/
def kind_map : List (String × String) := [
  ("class_definition", "class"),
  ("class_declaration", "class"),
  ("class_specifier", "class"),
  ("object_declaration", "class"),
  ("object_definition", "class"),
  ("struct_specifier", "struct"),
  ("struct_item", "struct"),
  ("struct_declaration", "struct"),
  ("type_declaration", "struct"),
  ("interface_declaration", "interface"),
  ("trait_item", "interface"),
  ("trait_definition", "interface"),
  ("protocol_declaration", "interface"),
  ("type_alias_declaration", "interface")]

/-- `ASTParser._normalize_kind`: `kind_map.get(node_type, default_kind)`. -/
def normalizeKind (node_type default_kind : String) : String :=
  (kind_map.lookup node_type).getD default_kind

/-- The double-quote character, for `str.strip('\x22\x22\x22')`. -/
def dquote : Char := Char.ofNat 34

/-- The single-quote character, for the `'''`-stripping call. -/
def squote : Char := Char.ofNat 39

/-- Inner scan of `_get_python_docstring` for an `expression_statement`
block child: first `string` child having a `string_content` child yields
the stripped, truncated content. -/
def docFromExprChildren : List TSNode → Option String
  | [] => none
  | c :: rest =>
    if c.ty == "string" then
      match c.children.find? (fun sc => sc.ty == "string_content") with
      | some sc =>
        let docstring := pyStrip sc.text
        some (if docstring.length > 200 then pyTake docstring 200 ++ "..."
          else docstring)
      | none => docFromExprChildren rest
    else docFromExprChildren rest

/-- Handling of the first child of a `block` in `_get_python_docstring`
(the trailing `break` in the source means only this first child is ever
examined): a `string` child always yields a docstring (via its
`string_content` child, or the quote-stripped full text as fallback); an
`expression_statement` child may yield one; anything else yields none. -/
def docFromBlockChild (block_child : TSNode) : Option String :=
  if block_child.ty == "string" then
    match block_child.children.find? (fun sc => sc.ty == "string_content") with
    | some sc =>
      let docstring := pyStrip sc.text
      some (if docstring.length > 200 then pyTake docstring 200 ++ "..."
        else docstring)
    | none =>
      let docstring :=
        pyStrip (pyStripChar squote (pyStripChar dquote block_child.text))
      some (if docstring.length > 200 then pyTake docstring 200 ++ "..."
        else docstring)
  else if block_child.ty == "expression_statement" then
    docFromExprChildren block_child.children
  else none

/-- Outer child loop of `_get_python_docstring`: each `block`-typed child
is examined (first statement only); the loop moves on when that yields
nothing. -/
def getPythonDocstringAux : List TSNode → Option String
  | [] => none
  | child :: rest =>
    if child.ty == "block" then
      match child.children with
      | [] => getPythonDocstringAux rest
      | first :: _ =>
        match docFromBlockChild first with
        | some d => some d
        | none => getPythonDocstringAux rest
    else getPythonDocstringAux rest

/-- `ASTParser._get_python_docstring` (the `content` argument is unused in
the source as well). -/
def getPythonDocstring (node : TSNode) (content : String) : Option String :=
  getPythonDocstringAux node.children

/-- `ASTParser._extract_symbol`: name extraction (empty or missing name
drops the symbol), kind normalization, 1-indexed line, Python docstring. -/
def extractSymbol (node : TSNode)
    (content filePath language kind : String) : Option Symbol :=
  match getName node language with
  | none => none
  | some name =>
    if name == "" then none
    else
      some { name := name
             kind := normalizeKind node.ty kind
             line := node.row + 1
             filepath := filePath
             language := language
             docstring :=
               if language == "python" then getPythonDocstring node content
               else none }

mutual

/-- `ASTParser._walk_tree`: depth-bounded recursive walk; symbols are
accumulated in document order (here: returned as a list). -/
def walkTree (content filePath language : String)
    (class_types function_types : List String) :
    TSNode → Nat → List Symbol
  | TSNode.mk ty tx row children, depth =>
    if depth > 3 then []
    else
      (if class_types.contains ty then
        (extractSymbol (TSNode.mk ty tx row children)
          content filePath language "class").toList
      else if function_types.contains ty then
        if depth ≤ 2 then
          (extractSymbol (TSNode.mk ty tx row children)
            content filePath language "function").toList
        else []
      else []) ++
      walkForest content filePath language class_types function_types
        children (depth + 1)

/-- The `for child in node.children` recursion of `_walk_tree`. -/
def walkForest (content filePath language : String)
    (class_types function_types : List String) :
    List TSNode → Nat → List Symbol
  | [], _ => []
  | n :: rest, depth =>
    walkTree content filePath language class_types function_types n depth ++
    walkForest content filePath language class_types function_types rest depth

end

/-- The `if not language:` resolution step at the top of
`extract_symbols`: detect the language from the path when the argument is
absent or Python-falsy (the empty string). -/
def resolveLanguage (filePath : String) : Option String → Option String
  | some l => if l == "" then detectLanguage filePath else some l
  | none => detectLanguage filePath

/-- `ASTParser.extract_symbols`: detect the language when not given, fetch
a parser, parse, and walk; every failure returns the empty list. -/
def extractSymbols (env : GrammarEnv) (st : ParserState)
    (content filePath : String) (language : Option String) :
    List Symbol × ParserState :=
  match resolveLanguage filePath language with
  | none => ([], st)
  | some language =>
    let out := getParser env st language
    match out.parserH with
    | none => ([], out.state)
    | some parserH =>
      match parserH content with
      | none => ([], out.state)
      | some rootNode =>
        let class_types := (CLASS_NODE_TYPES.lookup language).getD []
        let function_types := (FUNCTION_NODE_TYPES.lookup language).getD []
        (walkTree content filePath language class_types function_types
          rootNode 0, out.state)

/-- `ASTParser.extract_from_files`: iterate the file map in order, skip
test files when requested, and concatenate each file's symbols. -/
def extractFromFiles (env : GrammarEnv) (st : ParserState)
    (files : List (String × String)) (exclude_tests : Bool) :
    List Symbol × ParserState :=
  match files with
  | [] => ([], st)
  | (path, content) :: rest =>
    if exclude_tests && isTestFile path then
      extractFromFiles env st rest exclude_tests
    else
      let r := extractSymbols env st content path none
      let rr := extractFromFiles env r.2 rest exclude_tests
      (r.1 ++ rr.1, rr.2)

/-
Specification-side definitions, for stating the claims.  These follow the
spec's words, to be compared with the embedding above.
-/

/-- The closed symbol-kind vocabulary of the spec (§3). -/
def SYMBOL_KINDS : List String := ["class", "struct", "interface", "function"]

/-- Spec-side: the truncation step of the docstring heuristic, "truncate
to 200 characters with a truncation suffix if longer". -/
def truncatePy (s : String) : String :=
  if s.length > 200 then pyTake s 200 ++ "..." else s

mutual

/-- Spec-side: the full preorder enumeration of a tree, each node paired
with its depth from the starting node, with no depth bound. -/
def preorderWithDepth : TSNode → Nat → List (TSNode × Nat)
  | TSNode.mk ty tx row children, depth =>
    (TSNode.mk ty tx row children, depth) ::
      preorderForest children (depth + 1)

/-- Spec-side: preorder enumeration of a forest at a given depth. -/
def preorderForest : List TSNode → Nat → List (TSNode × Nat)
  | [], _ => []
  | n :: rest, depth => preorderWithDepth n depth ++ preorderForest rest depth

end

/-- Spec-side: what a single visited node at a given depth emits per §4.4:
a type-kind match emits the raw-kind-class symbol at any visited depth, a
function-kind match emits only at depth at most 2. -/
def emittedAt (content filePath language : String)
    (class_types function_types : List String)
    (node : TSNode) (depth : Nat) : List Symbol :=
  if class_types.contains node.ty then
    (extractSymbol node content filePath language "class").toList
  else if function_types.contains node.ty && decide (depth ≤ 2) then
    (extractSymbol node content filePath language "function").toList
  else []

/-- Spec-side: `docFromExprChildren` with the truncation step removed. -/
def docFromExprChildrenRaw : List TSNode → Option String
  | [] => none
  | c :: rest =>
    if c.ty == "string" then
      match c.children.find? (fun sc => sc.ty == "string_content") with
      | some sc => some (pyStrip sc.text)
      | none => docFromExprChildrenRaw rest
    else docFromExprChildrenRaw rest

/-- Spec-side: `docFromBlockChild` with the truncation step removed. -/
def docFromBlockChildRaw (block_child : TSNode) : Option String :=
  if block_child.ty == "string" then
    match block_child.children.find?
        (fun sc => sc.ty == "string_content") with
    | some sc => some (pyStrip sc.text)
    | none =>
      some (pyStrip (pyStripChar squote (pyStripChar dquote
        block_child.text)))
  else if block_child.ty == "expression_statement" then
    docFromExprChildrenRaw block_child.children
  else none

/-- Spec-side: `getPythonDocstringAux` with the truncation step removed. -/
def getPythonDocstringRawAux : List TSNode → Option String
  | [] => none
  | child :: rest =>
    if child.ty == "block" then
      match child.children with
      | [] => getPythonDocstringRawAux rest
      | first :: _ =>
        match docFromBlockChildRaw first with
        | some d => some d
        | none => getPythonDocstringRawAux rest
    else getPythonDocstringRawAux rest

/-- Spec-side: the stripped docstring text before truncation. -/
def getPythonDocstringRaw (node : TSNode) (content : String) :
    Option String :=
  getPythonDocstringRawAux node.children

/-- Spec-side: cache-free extraction semantics — `extract_symbols` with
the parser fetched directly from the grammar library on every call. -/
def extractSymbolsPure (env : GrammarEnv)
    (content filePath : String) (language : Option String) : List Symbol :=
  match resolveLanguage filePath language with
  | none => []
  | some language =>
    match env language with
    | none => []
    | some parserH =>
      match parserH content with
      | none => []
      | some rootNode =>
        walkTree content filePath language
          ((CLASS_NODE_TYPES.lookup language).getD [])
          ((FUNCTION_NODE_TYPES.lookup language).getD []) rootNode 0

/-- Spec-side: cache-free batch extraction semantics. -/
def extractFromFilesPure (env : GrammarEnv)
    (files : List (String × String)) (exclude_tests : Bool) : List Symbol :=
  match files with
  | [] => []
  | (path, content) :: rest =>
    if exclude_tests && isTestFile path then
      extractFromFilesPure env rest exclude_tests
    else
      extractSymbolsPure env content path none ++
        extractFromFilesPure env rest exclude_tests

/-- A parser cache is consistent with the grammar library when every
cached handle is the one the library would construct.  The empty cache is
consistent, and `getParser` preserves consistency, so every cache reachable
on one `ASTParser` instance is consistent. -/
def cacheConsistent (env : GrammarEnv) (st : ParserState) : Prop :=
  ∀ language p, st.parsers.lookup language = some p → env language = some p

/-
Concrete environments and trees used by the concrete theorems.  Trees are
models of the documented tree-sitter output on the specific snippets.
-/

/-- A grammar library in which every parser construction fails. -/
def envFailAll : GrammarEnv := fun _ => none

/-- A parser handle whose parse always fails. -/
def failingParserH : ParserH := fun _ => none

/-- A cache state holding a Python parser whose parse always fails. -/
def stWithFailingPy : ParserState := ⟨[("python", failingParserH)]⟩

/-- Model of the tree-sitter Python parse tree of `"class A:\n pass"`:
a module containing one class definition whose children are the `class`
keyword, the identifier, the colon, and the body block. -/
def treeA : TSNode := .mk "module" "class A:\n pass" 0 [
  .mk "class_definition" "class A:\n pass" 0 [
    .mk "class" "class" 0 [],
    .mk "identifier" "A" 0 [],
    .mk ":" ":" 0 [],
    .mk "block" "pass" 1 [.mk "pass_statement" "pass" 1 []]]]

/-- Model of the tree-sitter Python parse tree of
`"class TestA:\n pass"`. -/
def treeTestA : TSNode := .mk "module" "class TestA:\n pass" 0 [
  .mk "class_definition" "class TestA:\n pass" 0 [
    .mk "class" "class" 0 [],
    .mk "identifier" "TestA" 0 [],
    .mk ":" ":" 0 [],
    .mk "block" "pass" 1 [.mk "pass_statement" "pass" 1 []]]]

/-- Model of the tree-sitter Python parser on the two demo contents. -/
def pyParseDemo : ParserH := fun content =>
  if content == "class A:\n pass" then some treeA
  else if content == "class TestA:\n pass" then some treeTestA
  else none

/-- A grammar library offering only the demo Python parser. -/
def envDemo : GrammarEnv := fun language =>
  if language == "python" then some pyParseDemo else none

/-- The demo file map of spec §8, in its iteration order. -/
def demoFiles : List (String × String) :=
  [("src/a.py", "class A:\n pass"),
   ("tests/test_a.py", "class TestA:\n pass")]

/-- Model of the `type_spec` node for `Foo struct{}` in the grouped Go
declaration demo. -/
def goTypeSpecFoo : TSNode :=
  .mk "type_spec" "Foo struct{}" 1 [
    .mk "type_identifier" "Foo" 1 [],
    .mk "struct_type" "struct{}" 1 [
      .mk "struct" "struct" 1 [],
      .mk "field_declaration_list" "{}" 1 []]]

/-- Model of the `type_spec` node for `Bar struct{}` in the grouped Go
declaration demo. -/
def goTypeSpecBar : TSNode :=
  .mk "type_spec" "Bar struct{}" 2 [
    .mk "type_identifier" "Bar" 2 [],
    .mk "struct_type" "struct{}" 2 [
      .mk "struct" "struct" 2 [],
      .mk "field_declaration_list" "{}" 2 []]]

/-- Model of the `type_declaration` node of the grouped Go declaration
`type (\n\tFoo struct{}\n\tBar struct{}\n)`: keyword, parenthesis, two
`type_spec` children, closing parenthesis. -/
def goDeclNode : TSNode :=
  .mk "type_declaration" "type (\n\tFoo struct{}\n\tBar struct{}\n)" 0 [
    .mk "type" "type" 0 [],
    .mk "(" "(" 0 [],
    goTypeSpecFoo,
    goTypeSpecBar,
    .mk ")" ")" 3 []]

/-- Model of the tree-sitter Go parse tree of the grouped declaration:
a source file containing the single grouped `type_declaration`. -/
def goGroupTree : TSNode :=
  .mk "source_file" "type (\n\tFoo struct{}\n\tBar struct{}\n)" 0
    [goDeclNode]

/-- Model of the tree-sitter Go parser on the grouped-declaration demo. -/
def goParseDemo : ParserH := fun content =>
  if content == "type (\n\tFoo struct{}\n\tBar struct{}\n)" then
    some goGroupTree
  else none

/-- A grammar library offering only the demo Go parser. -/
def envGoDemo : GrammarEnv := fun language =>
  if language == "go" then some goParseDemo else none

/-
Shared helper lemmas.
-/

/-- Induction over `TSNode` with inductive hypotheses for all children. -/
theorem tsnodeInd (P : TSNode → Prop)
    (h : ∀ ty tx row cs, (∀ c ∈ cs, P c) → P (TSNode.mk ty tx row cs)) :
    ∀ n, P n
  | TSNode.mk ty tx row cs => h ty tx row cs (fun c hc => tsnodeInd P h c)
termination_by n => sizeOf n
decreasing_by
  have := List.sizeOf_lt_of_mem hc
  simp only [TSNode.mk.sizeOf_spec]
  omega

/-- A successful association-list lookup returns one of the stored
values. -/
theorem lookup_mem_values {α β : Type} [BEq α] (l : List (α × β))
    (k : α) (v : β) (h : l.lookup k = some v) : v ∈ l.map Prod.snd := by
  induction l with
  | nil => simp [List.lookup] at h
  | cons hd tl ih =>
    rw [List.lookup] at h
    by_cases hk : (k == hd.1) = true
    · simp only [hk] at h
      simp only [List.map_cons, List.mem_cons]
      exact Or.inl (Option.some.inj h).symm
    · simp only [Bool.not_eq_true] at hk
      simp only [hk] at h
      simp only [List.map_cons, List.mem_cons]
      exact Or.inr (ih h)

/-- A successful lookup in an appended association list succeeds in one of
the two halves. -/
theorem lookup_append_cases {α β : Type} [BEq α] (l₁ l₂ : List (α × β))
    (k : α) (v : β) (h : (l₁ ++ l₂).lookup k = some v) :
    l₁.lookup k = some v ∨ l₂.lookup k = some v := by
  induction l₁ with
  | nil => exact Or.inr h
  | cons hd tl ih =>
    rw [List.cons_append, List.lookup] at h
    by_cases hk : (k == hd.1) = true
    · simp only [hk] at h
      exact Or.inl (by rw [List.lookup, hk]; exact h)
    · simp only [Bool.not_eq_true] at hk
      simp only [hk] at h
      rcases ih h with h1 | h2
      · exact Or.inl (by rw [List.lookup, hk]; exact h1)
      · exact Or.inr h2

/-- C1 counterexample: after `_get_parser` fails for grammar id "python"
on a fresh instance, the failure is NOT recorded in the per-instance cache
(the cache has no entry for "python"), and a second call with the same id
invokes parser construction again. -/
theorem get_parser_failure_not_cached_cex :
    (getParser envFailAll ⟨[]⟩ "python").parserH.isNone = true ∧
    ((getParser envFailAll ⟨[]⟩
      "python").state.parsers.lookup "python").isNone = true ∧
    (getParser envFailAll (getParser envFailAll ⟨[]⟩ "python").state
      "python").attempted = true :=
  ⟨rfl, rfl, rfl⟩

/-- C1 (amended): when parser construction fails for a grammar id not in
the cache, `_get_parser` returns none and leaves the cache unchanged — the
failure is not cached, so a subsequent call with the same grammar id on the
same instance attempts construction again; every such call returns none and
`extract_symbols` yields no symbols for the file rather than aborting. -/
theorem get_parser_failure_retried (env : GrammarEnv) (st : ParserState)
    (language : String) (hc : st.parsers.lookup language = none)
    (he : env language = none) :
    getParser env st language = ⟨none, st, true⟩ ∧
    (getParser env (getParser env st language).state language).attempted
      = true ∧
    (∀ content filePath, language ≠ "" →
      extractSymbols env st content filePath (some language) = ([], st)) := by
  have h1 : getParser env st language = ⟨none, st, true⟩ := by
    unfold getParser
    rw [hc, he]
  refine ⟨h1, ?_, ?_⟩
  · rw [h1, h1]
  · intro content filePath hne
    have hbeq : (language == "") = false := by
      rw [Bool.eq_false_iff]
      intro hb
      exact hne (eq_of_beq hb)
    simp only [extractSymbols, resolveLanguage, hbeq, if_false,
      Bool.false_eq_true, h1]

/-- Witness for the amended C1 at the concrete grammar id "python" on a
fresh instance with an all-failing grammar library. -/
theorem get_parser_failure_retried_witness :
    getParser envFailAll ⟨[]⟩ "python" = ⟨none, ⟨[]⟩, true⟩ ∧
    (getParser envFailAll (getParser envFailAll ⟨[]⟩ "python").state
      "python").attempted = true ∧
    extractSymbols envFailAll ⟨[]⟩ "x" "a.py" (some "python")
      = ([], ⟨[]⟩) :=
  have h := get_parser_failure_retried envFailAll ⟨[]⟩ "python" rfl rfl
  ⟨h.1, h.2.1, h.2.2 "x" "a.py" (by decide)⟩

/-- C2 counterexample: `src/myconftest.py` has extension `.py`, sits in no
test directory, does not start with `test_`, does not end with `_test.py`
and is not named exactly `conftest.py`, yet `_is_test_file` classifies it
as a test file (the code checks `endswith("conftest.py")`, not equality). -/
theorem is_test_file_cex :
    isTestFile "src/myconftest.py" = true ∧
    pyStartsWith "myconftest.py" "test_" = false ∧
    pyEndsWith "myconftest.py" "_test.py" = false ∧
    ("myconftest.py" = "conftest.py" → False) ∧
    pyParts "src/myconftest.py" = ["src", "myconftest.py"] ∧
    TEST_DIR_PATTERNS.contains (pyLower "src") = false ∧
    TEST_DIR_PATTERNS.contains (pyLower "myconftest.py") = false ∧
    pyName "src/myconftest.py" = "myconftest.py" ∧
    pyLower (pySuffixOfName (pyName "src/myconftest.py")) = ".py" := by
  refine ⟨by decide, by decide, by decide, by decide, by decide, by decide,
    by decide, by decide, by decide⟩

/-- C2 (amended): for a path with no test-directory segment, if its
extension is `.py` (case-insensitive) then `_is_test_file` is true exactly
when the filename ends or starts with one of the configured patterns
`test_`, `_test.py`, `conftest.py` (so in particular any filename merely
ending in `conftest.py` or starting with `_test.py` also matches); and if
the extension has no configured patterns, `_is_test_file` is false. -/
theorem is_test_file_amended (path : String)
    (hdir : ∀ part ∈ pyParts path,
      TEST_DIR_PATTERNS.contains (pyLower part) = false) :
    (pyLower (pySuffixOfName (pyName path)) = ".py" →
      isTestFile path =
        (pyEndsWith (pyName path) "test_" ||
         pyStartsWith (pyName path) "test_" ||
         pyEndsWith (pyName path) "_test.py" ||
         pyStartsWith (pyName path) "_test.py" ||
         pyEndsWith (pyName path) "conftest.py" ||
         pyStartsWith (pyName path) "conftest.py")) ∧
    (TEST_FILE_PATTERNS.lookup (pyLower (pySuffixOfName (pyName path)))
        = none →
      isTestFile path = false) := by
  have hany : (pyParts path).any
      (fun part => TEST_DIR_PATTERNS.contains (pyLower part)) = false := by
    rw [List.any_eq_false]
    intro part hp
    simpa using hdir part hp
  have hd1 : String.mk ("test_".toList.dropWhile (fun c => c == '.'))
      = "test_" := by decide
  have hd2 : String.mk ("_test.py".toList.dropWhile (fun c => c == '.'))
      = "_test.py" := by decide
  have hd3 : String.mk ("conftest.py".toList.dropWhile (fun c => c == '.'))
      = "conftest.py" := by decide
  constructor
  · intro hext
    have hpat : (TEST_FILE_PATTERNS.lookup ".py").getD []
        = ["test_", "_test.py", "conftest.py"] := by decide
    simp only [isTestFile, hany, Bool.false_eq_true, if_false, hext, hpat,
      List.any_cons, List.any_nil, hd1, hd2, hd3, Bool.or_false,
      Bool.or_assoc]
  · intro h0
    simp only [isTestFile, hany, Bool.false_eq_true, if_false, h0,
      Option.getD_none, List.any_nil]

/-- Witness for the amended C2 at the concrete paths `src/test_foo.py`
and `docs/readme.md`. -/
theorem is_test_file_amended_witness :
    (isTestFile "src/test_foo.py" =
      (pyEndsWith (pyName "src/test_foo.py") "test_" ||
       pyStartsWith (pyName "src/test_foo.py") "test_" ||
       pyEndsWith (pyName "src/test_foo.py") "_test.py" ||
       pyStartsWith (pyName "src/test_foo.py") "_test.py" ||
       pyEndsWith (pyName "src/test_foo.py") "conftest.py" ||
       pyStartsWith (pyName "src/test_foo.py") "conftest.py")) ∧
    isTestFile "docs/readme.md" = false :=
  ⟨(is_test_file_amended "src/test_foo.py" (by decide)).1 (by decide),
   (is_test_file_amended "docs/readme.md" (by decide)).2 (by decide)⟩

/-- C8: `detect_language` is a pure, case-insensitive function of the
file extension: paths with the same lowercased extension get the same
answer; a supported (lowercased) extension yields its table entry; an
extension absent from the table yields none; and the documented grammar id
is returned for every supported extension, also in mixed case. -/
theorem detect_language_spec :
    (∀ p q : String,
      pyLower (pySuffixOfName (pyName p)) =
        pyLower (pySuffixOfName (pyName q)) →
      detectLanguage p = detectLanguage q) ∧
    (∀ p ext lang : String, EXTENSION_TO_LANGUAGE.lookup ext = some lang →
      pyLower (pySuffixOfName (pyName p)) = ext →
      detectLanguage p = some lang) ∧
    (∀ p : String,
      EXTENSION_TO_LANGUAGE.lookup (pyLower (pySuffixOfName (pyName p)))
        = none →
      detectLanguage p = none) ∧
    (detectLanguage "m.py" = some "python" ∧
     detectLanguage "m.pyi" = some "python" ∧
     detectLanguage "m.js" = some "javascript" ∧
     detectLanguage "m.jsx" = some "javascript" ∧
     detectLanguage "m.ts" = some "typescript" ∧
     detectLanguage "m.tsx" = some "tsx" ∧
     detectLanguage "m.go" = some "go" ∧
     detectLanguage "m.rs" = some "rust" ∧
     detectLanguage "m.java" = some "java" ∧
     detectLanguage "m.kt" = some "kotlin" ∧
     detectLanguage "m.c" = some "c" ∧
     detectLanguage "m.h" = some "c" ∧
     detectLanguage "m.cpp" = some "cpp" ∧
     detectLanguage "m.hpp" = some "cpp" ∧
     detectLanguage "m.cc" = some "cpp" ∧
     detectLanguage "m.cs" = some "c_sharp" ∧
     detectLanguage "m.rb" = some "ruby" ∧
     detectLanguage "m.php" = some "php" ∧
     detectLanguage "m.swift" = some "swift" ∧
     detectLanguage "m.scala" = some "scala" ∧
     detectLanguage "dir/m.PY" = some "python" ∧
     detectLanguage "m.Go" = some "go" ∧
     detectLanguage "m.SCALA" = some "scala" ∧
     detectLanguage "README.md" = none ∧
     detectLanguage "Makefile" = none) := by
  refine ⟨?_, ?_, ?_, by decide⟩
  · intro p q h
    unfold detectLanguage
    rw [h]
  · intro p ext lang h1 h2
    unfold detectLanguage
    rw [h2, h1]
  · intro p h
    unfold detectLanguage
    rw [h]

/-- Witness for C8 at concrete paths. -/
theorem detect_language_spec_witness :
    detectLanguage "a/b.PY" = detectLanguage "c.py" ∧
    detectLanguage "x/y.Rs" = some "rust" ∧
    detectLanguage "notes.txt" = none :=
  ⟨detect_language_spec.1 "a/b.PY" "c.py" (by decide),
   detect_language_spec.2.1 "x/y.Rs" ".rs" "rust" (by decide) (by decide),
   detect_language_spec.2.2.1 "notes.txt" (by decide)⟩

/-- C5: on the demo file map, extraction with `exclude_tests=true` yields
exactly the one symbol `A`; with `exclude_tests=false` it yields `A` then
`TestA`, following input file order then document order. -/
theorem extract_from_files_demo :
    (extractFromFiles envDemo ⟨[]⟩ demoFiles true).1 =
      [⟨"A", "class", 1, "src/a.py", "python", none⟩] ∧
    (extractFromFiles envDemo ⟨[]⟩ demoFiles false).1 =
      [⟨"A", "class", 1, "src/a.py", "python", none⟩,
       ⟨"TestA", "class", 1, "tests/test_a.py", "python", none⟩] :=
  ⟨by decide, by decide⟩

/-- C10: on a Go `type_declaration` whose children are non-name tokens
followed by `type_spec` nodes, `_get_name` returns the text of the first
`type_identifier` found, and the walker emits exactly one symbol for the
whole grouped declaration, named after the first declared type; the
remaining declared names are dropped. -/
theorem go_grouped_type_declaration :
    (∀ (pre rest spec_children : List TSNode) (nm : TSNode)
      (ty0 tx spec_tx : String) (row spec_row : Nat),
      (∀ c ∈ pre, nameFieldTypes.contains c.ty = false ∧
        c.ty ≠ "type_spec") →
      spec_children.find? (fun sub => sub.ty == "type_identifier")
        = some nm →
      getName (TSNode.mk ty0 tx row
          (pre ++ TSNode.mk "type_spec" spec_tx spec_row spec_children
            :: rest)) "go"
        = some nm.text) ∧
    (extractSymbols envGoDemo ⟨[]⟩ "type (\n\tFoo struct{}\n\tBar struct{}\n)"
        "pkg/types.go" none).1
      = [⟨"Foo", "struct", 1, "pkg/types.go", "go", none⟩] := by
  constructor
  · intro pre rest spec_children nm ty0 tx spec_tx row spec_row hpre hfind
    unfold getName
    show getNameFromChildren
      (pre ++ TSNode.mk "type_spec" spec_tx spec_row spec_children :: rest)
      = some nm.text
    induction pre with
    | nil =>
      rw [List.nil_append, getNameFromChildren]
      have h1 : nameFieldTypes.contains
          (TSNode.mk "type_spec" spec_tx spec_row spec_children).ty
          = false := rfl
      have h2 : ((TSNode.mk "type_spec" spec_tx spec_row spec_children).ty
          == "type_spec") = true := rfl
      rw [h1, h2]
      simp only [Bool.false_eq_true, if_false, if_true]
      have h3 : (TSNode.mk "type_spec" spec_tx spec_row
          spec_children).children = spec_children := rfl
      rw [h3, hfind]
    | cons c pre' ih =>
      have hc := hpre c (List.mem_cons_self c pre')
      have h2 : (c.ty == "type_spec") = false :=
        beq_eq_false_iff_ne.mpr hc.2
      rw [List.cons_append, getNameFromChildren, hc.1, h2]
      simp only [Bool.false_eq_true, if_false]
      exact ih (fun d hd => hpre d (List.mem_cons_of_mem c hd))
  · decide

/-- Witness for C10 at the concrete grouped-declaration node. -/
theorem go_grouped_type_declaration_witness :
    getName goDeclNode "go" = some "Foo" :=
  go_grouped_type_declaration.1
    [TSNode.mk "type" "type" 0 [], TSNode.mk "(" "(" 0 []]
    [goTypeSpecBar, TSNode.mk ")" ")" 3 []]
    [TSNode.mk "type_identifier" "Foo" 1 [],
     TSNode.mk "struct_type" "struct{}" 1 [
       TSNode.mk "struct" "struct" 1 [],
       TSNode.mk "field_declaration_list" "{}" 1 []]]
    (TSNode.mk "type_identifier" "Foo" 1 [])
    "type_declaration" "type (\n\tFoo struct{}\n\tBar struct{}\n)"
    "Foo struct{}" 0 1
    (by decide) rfl

/-- Helper: an undetectable language yields no symbols and leaves the
cache unchanged. -/
theorem extractSymbols_detect_none (env : GrammarEnv) (st : ParserState)
    (content filePath : String) (h : detectLanguage filePath = none) :
    extractSymbols env st content filePath none = ([], st) := by
  simp only [extractSymbols, resolveLanguage, h]

/-- C6: extraction is a best-effort batch — every single-file failure mode
yields the empty symbol list for that file instead of an error: an
extension with no registry entry, a failed parser construction, and a
parse failure each yield `[]`; the empty file map yields `[]`; and a file
with an unknown extension contributes nothing to the batch.  All embedded
functions are total, which is the embedding of "no exception propagates
out of `extract_from_files`". -/
theorem extract_best_effort :
    (∀ (env : GrammarEnv) (st : ParserState) (content filePath : String),
      detectLanguage filePath = none →
      extractSymbols env st content filePath none = ([], st)) ∧
    (∀ (env : GrammarEnv) (st : ParserState)
      (content filePath language : String),
      language ≠ "" → st.parsers.lookup language = none →
      env language = none →
      extractSymbols env st content filePath (some language) = ([], st)) ∧
    (∀ (env : GrammarEnv) (st : ParserState)
      (content filePath language : String) (p : ParserH),
      language ≠ "" → st.parsers.lookup language = some p →
      p content = none →
      extractSymbols env st content filePath (some language) = ([], st)) ∧
    (∀ (env : GrammarEnv) (st : ParserState) (exclude_tests : Bool),
      extractFromFiles env st [] exclude_tests = ([], st)) ∧
    (∀ (env : GrammarEnv) (st : ParserState) (exclude_tests : Bool)
      (path content : String) (rest : List (String × String)),
      detectLanguage path = none →
      extractFromFiles env st ((path, content) :: rest) exclude_tests =
        extractFromFiles env st rest exclude_tests) := by
  refine ⟨extractSymbols_detect_none, ?_, ?_, ?_, ?_⟩
  · intro env st content filePath language hne hc he
    have hbeq : (language == "") = false := by
      rw [Bool.eq_false_iff]
      intro hb
      exact hne (eq_of_beq hb)
    have h1 : getParser env st language = ⟨none, st, true⟩ := by
      unfold getParser
      rw [hc, he]
    simp only [extractSymbols, resolveLanguage, hbeq, Bool.false_eq_true,
      if_false, h1]
  · intro env st content filePath language p hne hc hparse
    have hbeq : (language == "") = false := by
      rw [Bool.eq_false_iff]
      intro hb
      exact hne (eq_of_beq hb)
    have h1 : getParser env st language = ⟨some p, st, false⟩ := by
      unfold getParser
      rw [hc]
    simp only [extractSymbols, resolveLanguage, hbeq, Bool.false_eq_true,
      if_false, h1, hparse]
  · intro env st exclude_tests
    rfl
  · intro env st exclude_tests path content rest h
    by_cases hT : (exclude_tests && isTestFile path) = true
    · simp only [extractFromFiles, hT, if_true]
    · rw [Bool.not_eq_true] at hT
      simp only [extractFromFiles, hT, Bool.false_eq_true, if_false,
        extractSymbols_detect_none env st content path h,
        List.nil_append, Prod.mk.eta]

/-- Witness for C6 at concrete inputs: unknown extension, failing
construction, failing parse, empty map, and skipped unknown file. -/
theorem extract_best_effort_witness :
    extractSymbols envFailAll ⟨[]⟩ "some content" "file.unknown" none
      = ([], ⟨[]⟩) ∧
    extractSymbols envFailAll ⟨[]⟩ "x" "a.py" (some "python")
      = ([], ⟨[]⟩) ∧
    extractSymbols envFailAll stWithFailingPy "x" "a.py" (some "python")
      = ([], stWithFailingPy) ∧
    extractFromFiles envFailAll ⟨[]⟩ [] true = ([], ⟨[]⟩) ∧
    extractFromFiles envFailAll ⟨[]⟩ [("file.unknown", "c")] true
      = extractFromFiles envFailAll ⟨[]⟩ [] true :=
  ⟨extract_best_effort.1 envFailAll ⟨[]⟩ "some content" "file.unknown"
    (by decide),
   extract_best_effort.2.1 envFailAll ⟨[]⟩ "x" "a.py" "python"
    (by decide) rfl rfl,
   extract_best_effort.2.2.1 envFailAll stWithFailingPy "x" "a.py" "python"
    failingParserH (by decide) rfl rfl,
   extract_best_effort.2.2.2.1 envFailAll ⟨[]⟩ true,
   extract_best_effort.2.2.2.2 envFailAll ⟨[]⟩ true "file.unknown" "c" []
    (by decide)⟩

/-- Helper: `_normalize_kind` stays inside the closed symbol-kind set
whenever the default kind is in it. -/
theorem normalizeKind_mem (node_type default_kind : String)
    (h : default_kind ∈ SYMBOL_KINDS) :
    normalizeKind node_type default_kind ∈ SYMBOL_KINDS := by
  unfold normalizeKind
  cases hl : kind_map.lookup node_type with
  | none => simpa using h
  | some v =>
    have hv := lookup_mem_values kind_map node_type v hl
    have hsub : ∀ w ∈ kind_map.map Prod.snd, w ∈ SYMBOL_KINDS := by decide
    simpa using hsub v hv

/-- Helper: an emitted symbol's kind is the normalized kind of its node. -/
theorem extractSymbol_kind (node : TSNode)
    (content filePath language kind : String) (s : Symbol)
    (h : extractSymbol node content filePath language kind = some s) :
    s.kind = normalizeKind node.ty kind := by
  unfold extractSymbol at h
  cases hn : getName node language with
  | none =>
    simp only [hn] at h
    exact Option.noConfusion h
  | some name =>
    simp only [hn] at h
    by_cases hne : (name == "") = true
    · rw [if_pos hne] at h
      cases h
    · rw [Bool.not_eq_true] at hne
      simp only [hne, Bool.false_eq_true, if_false,
        Option.some.injEq] at h
      rw [← h]

/-- Helper: kinds of symbols emitted by `_walk_tree` over a forest, given
the per-node fact for its members. -/
theorem walkForest_kinds (content filePath language : String)
    (ct ft : List String) (cs : List TSNode)
    (ih : ∀ c ∈ cs, ∀ depth s,
      s ∈ walkTree content filePath language ct ft c depth →
      s.kind ∈ SYMBOL_KINDS) :
    ∀ depth s, s ∈ walkForest content filePath language ct ft cs depth →
      s.kind ∈ SYMBOL_KINDS := by
  induction cs with
  | nil =>
    intro d s hs
    rw [walkForest] at hs
    cases hs
  | cons c cs' ihl =>
    intro d s hs
    rw [walkForest] at hs
    rcases List.mem_append.mp hs with h1 | h2
    · exact ih c (List.mem_cons_self c cs') d s h1
    · exact ihl (fun c' hc' => ih c' (List.mem_cons_of_mem c hc')) d s h2

/-- Helper: every symbol emitted by `_walk_tree` has a kind in the closed
4-value set. -/
theorem walkTree_kinds (content filePath language : String)
    (ct ft : List String) :
    ∀ node depth s,
      s ∈ walkTree content filePath language ct ft node depth →
      s.kind ∈ SYMBOL_KINDS := by
  intro node
  induction node using tsnodeInd with
  | h ty tx row cs ih =>
    intro depth s hs
    by_cases hd : depth > 3
    · rw [walkTree, if_pos hd] at hs
      cases hs
    · rw [walkTree, if_neg hd] at hs
      rcases List.mem_append.mp hs with h1 | h2
      · by_cases hcl : ct.contains ty = true
        · rw [if_pos hcl] at h1
          have := Option.mem_toList.mp h1
          rw [extractSymbol_kind _ _ _ _ _ _ this]
          exact normalizeKind_mem _ _ (by decide)
        · rw [Bool.not_eq_true] at hcl
          simp only [hcl, Bool.false_eq_true, if_false] at h1
          by_cases hfn : ft.contains ty = true
          · simp only [hfn, if_true] at h1
            by_cases hd2 : depth ≤ 2
            · rw [if_pos hd2] at h1
              have := Option.mem_toList.mp h1
              rw [extractSymbol_kind _ _ _ _ _ _ this]
              exact normalizeKind_mem _ _ (by decide)
            · rw [if_neg hd2] at h1
              cases h1
          · rw [Bool.not_eq_true] at hfn
            simp only [hfn, Bool.false_eq_true, if_false] at h1
            cases h1
      · exact walkForest_kinds content filePath language ct ft cs ih
          (depth + 1) s h2

/-- C3 counterexample: the kind-normalization table does not cover every
node-type name enumerated in the registry — Ruby's type-node `class`,
PHP's type-node `trait_declaration`, and Python's function-node
`function_definition` are all absent from it. -/
theorem kind_map_not_covering_cex :
    "class" ∈ (CLASS_NODE_TYPES.lookup "ruby").getD [] ∧
    kind_map.lookup "class" = none ∧
    "trait_declaration" ∈ (CLASS_NODE_TYPES.lookup "php").getD [] ∧
    kind_map.lookup "trait_declaration" = none ∧
    "function_definition" ∈ (FUNCTION_NODE_TYPES.lookup "python").getD [] ∧
    kind_map.lookup "function_definition" = none := by
  refine ⟨by decide, by decide, by decide, by decide, by decide, by decide⟩

/-- C3 (amended): the kind-normalization table covers the registry's
type-node names except Ruby's `class` and PHP's `trait_declaration`, and
none of the function-node names; a node type absent from the table keeps
the default kind of the branch that matched, and every symbol emitted by
the walker has a kind in the closed set {class, struct, interface,
function}. -/
theorem normalize_kind_closed_set :
    (∀ s ∈ (CLASS_NODE_TYPES.map Prod.snd).flatten,
      s ≠ "class" → s ≠ "trait_declaration" →
      (kind_map.lookup s).isSome = true) ∧
    ((kind_map.lookup "class").isNone = true ∧
     (kind_map.lookup "trait_declaration").isNone = true ∧
     ∀ s ∈ (FUNCTION_NODE_TYPES.map Prod.snd).flatten,
       (kind_map.lookup s).isNone = true) ∧
    (∀ node_type default_kind, default_kind ∈ SYMBOL_KINDS →
      normalizeKind node_type default_kind ∈ SYMBOL_KINDS) ∧
    (∀ (content filePath language : String) (ct ft : List String)
      (node : TSNode) (depth : Nat) (s : Symbol),
      s ∈ walkTree content filePath language ct ft node depth →
      s.kind ∈ SYMBOL_KINDS) :=
  ⟨by decide, ⟨by decide, by decide, by decide⟩,
   normalizeKind_mem,
   fun content filePath language ct ft node depth s hs =>
     walkTree_kinds content filePath language ct ft node depth s hs⟩

/-- Witness for C3 at concrete inputs. -/
theorem normalize_kind_closed_set_witness :
    (kind_map.lookup "class_definition").isSome = true ∧
    normalizeKind "strange_node" "class" ∈ SYMBOL_KINDS ∧
    Symbol.kind ⟨"A", "class", 1, "src/a.py", "python", none⟩
      ∈ SYMBOL_KINDS :=
  ⟨normalize_kind_closed_set.1 "class_definition" (by decide) (by decide)
    (by decide),
   normalize_kind_closed_set.2.2.1 "strange_node" "class" (by decide),
   normalize_kind_closed_set.2.2.2 "class A:\n pass" "src/a.py" "python"
     ["class_definition"] ["function_definition"] treeA 0
     ⟨"A", "class", 1, "src/a.py", "python", none⟩ (by decide)⟩

/-- Helper: the expression-statement docstring scan factors as the raw
(untruncated) scan followed by the truncation step. -/
theorem docFromExprChildren_eq (cs : List TSNode) :
    docFromExprChildren cs = (docFromExprChildrenRaw cs).map truncatePy := by
  induction cs with
  | nil => rfl
  | cons c rest ih =>
    rw [docFromExprChildren, docFromExprChildrenRaw]
    by_cases hc : (c.ty == "string") = true
    · rw [if_pos hc, if_pos hc]
      cases hf : c.children.find? (fun sc => sc.ty == "string_content") with
      | none => exact ih
      | some sc => rfl
    · rw [Bool.not_eq_true] at hc
      simp only [hc, Bool.false_eq_true, if_false]
      exact ih

/-- Helper: the block-first-statement docstring step factors as its raw
version followed by the truncation step. -/
theorem docFromBlockChild_eq (c : TSNode) :
    docFromBlockChild c = (docFromBlockChildRaw c).map truncatePy := by
  rw [docFromBlockChild, docFromBlockChildRaw]
  by_cases hc : (c.ty == "string") = true
  · rw [if_pos hc, if_pos hc]
    cases hf : c.children.find? (fun sc => sc.ty == "string_content") with
    | none => rfl
    | some sc => rfl
  · rw [Bool.not_eq_true] at hc
    simp only [hc, Bool.false_eq_true, if_false]
    by_cases he : (c.ty == "expression_statement") = true
    · rw [if_pos he, if_pos he]
      exact docFromExprChildren_eq c.children
    · rw [Bool.not_eq_true] at he
      simp only [he, Bool.false_eq_true, if_false]
      rfl

/-- Helper: the outer docstring child loop factors as its raw version
followed by the truncation step. -/
theorem getPythonDocstringAux_eq (cs : List TSNode) :
    getPythonDocstringAux cs = (getPythonDocstringRawAux cs).map truncatePy := by
  induction cs with
  | nil => rfl
  | cons child rest ih =>
    rw [getPythonDocstringAux, getPythonDocstringRawAux]
    by_cases hb : (child.ty == "block") = true
    · rw [if_pos hb, if_pos hb]
      cases hcs : child.children with
      | nil => exact ih
      | cons first more =>
        show (match docFromBlockChild first with
              | some d => some d
              | none => getPythonDocstringAux rest) =
            Option.map truncatePy
              (match docFromBlockChildRaw first with
               | some d => some d
               | none => getPythonDocstringRawAux rest)
        rw [docFromBlockChild_eq first]
        cases hr : docFromBlockChildRaw first with
        | none => simpa using ih
        | some d => rfl
    · rw [Bool.not_eq_true] at hb
      simp only [hb, Bool.false_eq_true, if_false]
      exact ih

/-- C7: every stored Python docstring is the stripped raw docstring text
passed through the truncation step, which leaves text of at most 200
characters unmodified and replaces longer text by its first 200 characters
followed by the "..." truncation marker. -/
theorem docstring_truncation :
    (∀ (node : TSNode) (content : String),
      getPythonDocstring node content =
        (getPythonDocstringRaw node content).map truncatePy) ∧
    (∀ s : String, s.length ≤ 200 → truncatePy s = s) ∧
    (∀ s : String, 200 < s.length →
      truncatePy s = pyTake s 200 ++ "...") := by
  refine ⟨?_, ?_, ?_⟩
  · intro node content
    exact getPythonDocstringAux_eq node.children
  · intro s h
    unfold truncatePy
    rw [if_neg (by omega)]
  · intro s h
    unfold truncatePy
    rw [if_pos (by omega)]

set_option maxRecDepth 4096 in
/-- Witness for C7: a short docstring is kept, a 201-character docstring
is cut to its first 200 characters plus the marker. -/
theorem docstring_truncation_witness :
    getPythonDocstring treeA "class A:\n pass" =
      (getPythonDocstringRaw treeA "class A:\n pass").map truncatePy ∧
    truncatePy "doc" = "doc" ∧
    truncatePy "aaaaaaaaaaaaaaaaaaaaaaaaaaaaaaaaaaaaaaaaaaaaaaaaaaaaaaaaaaaaaaaaaaaaaaaaaaaaaaaaaaaaaaaaaaaaaaaaaaaaaaaaaaaaaaaaaaaaaaaaaaaaaaaaaaaaaaaaaaaaaaaaaaaaaaaaaaaaaaaaaaaaaaaaaaaaaaaaaaaaaaaaaaaaaaaaaaaaaaaaa" = pyTake "aaaaaaaaaaaaaaaaaaaaaaaaaaaaaaaaaaaaaaaaaaaaaaaaaaaaaaaaaaaaaaaaaaaaaaaaaaaaaaaaaaaaaaaaaaaaaaaaaaaaaaaaaaaaaaaaaaaaaaaaaaaaaaaaaaaaaaaaaaaaaaaaaaaaaaaaaaaaaaaaaaaaaaaaaaaaaaaaaaaaaaaaaaaaaaaaaaaaaaaaa" 200 ++ "..." :=
  ⟨docstring_truncation.1 treeA "class A:\n pass",
   docstring_truncation.2.1 "doc" (by decide),
   docstring_truncation.2.2 "aaaaaaaaaaaaaaaaaaaaaaaaaaaaaaaaaaaaaaaaaaaaaaaaaaaaaaaaaaaaaaaaaaaaaaaaaaaaaaaaaaaaaaaaaaaaaaaaaaaaaaaaaaaaaaaaaaaaaaaaaaaaaaaaaaaaaaaaaaaaaaaaaaaaaaaaaaaaaaaaaaaaaaaaaaaaaaaaaaaaaaaaaaaaaaaaaaaaaaaaa" (by decide)⟩

/-- Helper: every entry of a forest preorder lies at depth at least the
starting depth, given the per-node fact for its members. -/
theorem preorderForest_depth_le (cs : List TSNode)
    (ih : ∀ c ∈ cs, ∀ d p, p ∈ preorderWithDepth c d → d ≤ p.2) :
    ∀ d p, p ∈ preorderForest cs d → d ≤ p.2 := by
  induction cs with
  | nil =>
    intro d p hp
    rw [preorderForest] at hp
    cases hp
  | cons c cs' ihl =>
    intro d p hp
    rw [preorderForest] at hp
    rcases List.mem_append.mp hp with h1 | h2
    · exact ih c (List.mem_cons_self c cs') d p h1
    · exact ihl (fun c' hc' => ih c' (List.mem_cons_of_mem c hc')) d p h2

/-- Helper: every entry of a preorder enumeration lies at depth at least
the starting depth. -/
theorem preorderWithDepth_depth_le :
    ∀ n d p, p ∈ preorderWithDepth n d → d ≤ p.2 := by
  intro n
  induction n using tsnodeInd with
  | h ty tx row cs ih =>
    intro d p hp
    rw [preorderWithDepth] at hp
    rcases List.mem_cons.mp hp with h1 | h2
    · rw [h1]
    · have := preorderForest_depth_le cs ih (d + 1) p h2
      omega

/-- Helper: the walker on a forest equals the depth-filtered preorder
emission, given the per-node fact for its members. -/
theorem walkForest_filter_eq (content filePath language : String)
    (ct ft : List String) (cs : List TSNode)
    (ih : ∀ c ∈ cs, ∀ d,
      walkTree content filePath language ct ft c d =
        ((preorderWithDepth c d).filter (fun p => decide (p.2 ≤ 3))).flatMap
          (fun p => emittedAt content filePath language ct ft p.1 p.2)) :
    ∀ d, walkForest content filePath language ct ft cs d =
      ((preorderForest cs d).filter (fun p => decide (p.2 ≤ 3))).flatMap
        (fun p => emittedAt content filePath language ct ft p.1 p.2) := by
  induction cs with
  | nil =>
    intro d
    rfl
  | cons c cs' ihl =>
    intro d
    rw [walkForest, preorderForest, List.filter_append, List.flatMap_append]
    rw [ih c (List.mem_cons_self c cs') d]
    rw [ihl (fun c' hc' => ih c' (List.mem_cons_of_mem c hc')) d]

/-- Helper: the walker equals emission over the preorder restricted to
depth at most 3. -/
theorem walkTree_filter_eq (content filePath language : String)
    (ct ft : List String) :
    ∀ node depth,
      walkTree content filePath language ct ft node depth =
        ((preorderWithDepth node depth).filter
            (fun p => decide (p.2 ≤ 3))).flatMap
          (fun p => emittedAt content filePath language ct ft p.1 p.2) := by
  intro node
  induction node using tsnodeInd with
  | h ty tx row cs ih =>
    intro depth
    rw [walkTree, preorderWithDepth]
    by_cases hd : depth > 3
    · rw [if_pos hd]
      have hfil : ((TSNode.mk ty tx row cs, depth) ::
            preorderForest cs (depth + 1)).filter
            (fun p => decide (p.2 ≤ 3)) = [] := by
        rw [List.filter_eq_nil_iff]
        intro p hp
        rcases List.mem_cons.mp hp with h1 | h2
        · rw [h1]
          simp only [decide_eq_true_eq]
          omega
        · have h3 := preorderForest_depth_le cs
            (fun c _ => preorderWithDepth_depth_le c) (depth + 1) p h2
          simp only [decide_eq_true_eq]
          omega
      rw [hfil]
      rfl
    · rw [if_neg hd]
      have hdec : decide (depth ≤ 3) = true := by
        simp only [decide_eq_true_eq]
        omega
      simp only [List.filter_cons, hdec, if_true, List.flatMap_cons]
      have hforest := walkForest_filter_eq content filePath language ct ft
        cs ih (depth + 1)
      rw [hforest]
      have hhere : (if ct.contains ty = true then
            (extractSymbol (TSNode.mk ty tx row cs)
              content filePath language "class").toList
          else if ft.contains ty = true then
            if depth ≤ 2 then
              (extractSymbol (TSNode.mk ty tx row cs)
                content filePath language "function").toList
            else []
          else []) =
          emittedAt content filePath language ct ft
            (TSNode.mk ty tx row cs) depth := by
        unfold emittedAt
        simp only [TSNode.ty]
        by_cases h1 : ct.contains ty = true
        · rw [if_pos h1, if_pos h1]
        · rw [if_neg h1, if_neg h1]
          by_cases h2 : ft.contains ty = true
          · by_cases h3 : depth ≤ 2
            · have hb : (ft.contains ty && decide (depth ≤ 2)) = true := by
                rw [h2, decide_eq_true h3]
                rfl
              rw [if_pos h2, if_pos h3, if_pos hb]
            · have hb : (ft.contains ty && decide (depth ≤ 2)) = false := by
                rw [decide_eq_false h3]
                exact Bool.and_false _
              rw [if_pos h2, if_neg h3,
                if_neg (by rw [hb]; exact Bool.false_ne_true)]
          · rw [Bool.not_eq_true] at h2
            have hb : (ft.contains ty && decide (depth ≤ 2)) = false := by
              rw [h2]
              rfl
            rw [if_neg (by rw [h2]; exact Bool.false_ne_true),
              if_neg (by rw [hb]; exact Bool.false_ne_true)]
      rw [hhere]

/-- C4: the walker never inspects a node deeper than 3 levels from the
root — a call at depth beyond the bound returns nothing, and the emitted
sequence equals the per-node emission over the preorder restricted to
depth at most 3; a function-kind node emits only at depth at most 2
(depth-3 functions, nested inside another function, are suppressed),
while a type-kind node emits at any inspected depth. -/
theorem walk_depth_bounded :
    (∀ (content filePath language : String) (ct ft : List String)
      (node : TSNode) (depth : Nat), 3 < depth →
      walkTree content filePath language ct ft node depth = []) ∧
    (∀ (content filePath language : String) (ct ft : List String)
      (root : TSNode),
      walkTree content filePath language ct ft root 0 =
        ((preorderWithDepth root 0).filter
            (fun p => decide (p.2 ≤ 3))).flatMap
          (fun p => emittedAt content filePath language ct ft p.1 p.2)) ∧
    (∀ (content filePath language : String) (ct ft : List String)
      (node : TSNode) (depth : Nat),
      ft.contains node.ty = true → ct.contains node.ty = false →
      2 < depth →
      emittedAt content filePath language ct ft node depth = []) ∧
    (∀ (content filePath language : String) (ct ft : List String)
      (node : TSNode) (depth : Nat),
      ct.contains node.ty = true →
      emittedAt content filePath language ct ft node depth =
        (extractSymbol node content filePath language "class").toList) := by
  refine ⟨?_, ?_, ?_, ?_⟩
  · intro content filePath language ct ft node depth hdep
    cases node with
    | mk ty tx row cs => rw [walkTree, if_pos hdep]
  · intro content filePath language ct ft root
    exact walkTree_filter_eq content filePath language ct ft root 0
  · intro content filePath language ct ft node depth hf hc hdep
    unfold emittedAt
    have hb : (ft.contains node.ty && decide (depth ≤ 2)) = false := by
      rw [decide_eq_false (by omega : ¬ depth ≤ 2)]
      exact Bool.and_false _
    rw [if_neg (by rw [hc]; exact Bool.false_ne_true),
      if_neg (by rw [hb]; exact Bool.false_ne_true)]
  · intro content filePath language ct ft node depth hc
    unfold emittedAt
    rw [if_pos hc]

/-- Witness for C4 at concrete inputs: a depth-4 call yields nothing, a
function node at depth 3 emits nothing, a class node at depth 3 emits its
symbol. -/
theorem walk_depth_bounded_witness :
    walkTree "c" "f.py" "python" ["class_definition"]
      ["function_definition"] treeA 4 = [] ∧
    emittedAt "c" "f.py" "python" ["class_definition"]
      ["function_definition"]
      (TSNode.mk "function_definition" "def g(): pass" 3
        [TSNode.mk "identifier" "g" 3 []]) 3 = [] ∧
    emittedAt "c" "f.py" "python" ["class_definition"]
      ["function_definition"]
      (TSNode.mk "class_definition" "class C: pass" 3
        [TSNode.mk "identifier" "C" 3 []]) 3 =
      (extractSymbol
        (TSNode.mk "class_definition" "class C: pass" 3
          [TSNode.mk "identifier" "C" 3 []]) "c" "f.py" "python"
        "class").toList :=
  ⟨walk_depth_bounded.1 "c" "f.py" "python" ["class_definition"]
    ["function_definition"] treeA 4 (by decide),
   walk_depth_bounded.2.2.1 "c" "f.py" "python" ["class_definition"]
    ["function_definition"]
    (TSNode.mk "function_definition" "def g(): pass" 3
      [TSNode.mk "identifier" "g" 3 []]) 3 rfl rfl (by decide),
   walk_depth_bounded.2.2.2 "c" "f.py" "python" ["class_definition"]
    ["function_definition"]
    (TSNode.mk "class_definition" "class C: pass" 3
      [TSNode.mk "identifier" "C" 3 []]) 3 rfl⟩

/-- Helper: the empty parser cache is consistent with any grammar
library. -/
theorem cacheConsistent_empty (env : GrammarEnv) :
    cacheConsistent env ⟨[]⟩ := by
  intro language p h
  simp [List.lookup] at h

/-- Helper: under a consistent cache, `_get_parser` returns exactly what
the grammar library returns, and keeps the cache consistent. -/
theorem getParser_consistent (env : GrammarEnv) (st : ParserState)
    (language : String) (h : cacheConsistent env st) :
    (getParser env st language).parserH = env language ∧
    cacheConsistent env (getParser env st language).state := by
  unfold getParser
  cases hl : st.parsers.lookup language with
  | some p => exact ⟨(h language p hl).symm, h⟩
  | none =>
    cases he : env language with
    | none => exact ⟨rfl, h⟩
    | some p =>
      refine ⟨rfl, ?_⟩
      intro lang q hq
      rcases lookup_append_cases st.parsers [(language, p)] lang q hq
        with h1 | h2
      · exact h lang q h1
      · rw [List.lookup] at h2
        by_cases hk : (lang == language) = true
        · simp only [hk] at h2
          rw [eq_of_beq hk, he]
          rw [← Option.some.inj h2]
        · rw [Bool.not_eq_true] at hk
          simp only [hk] at h2
          cases h2

/-- Helper: under a consistent cache, `extract_symbols` computes the
cache-free extraction semantics and keeps the cache consistent. -/
theorem extractSymbols_consistent (env : GrammarEnv) (st : ParserState)
    (content filePath : String) (language? : Option String)
    (h : cacheConsistent env st) :
    (extractSymbols env st content filePath language?).1 =
      extractSymbolsPure env content filePath language? ∧
    cacheConsistent env
      (extractSymbols env st content filePath language?).2 := by
  have key : ∀ lang : String,
      ((match (getParser env st lang).parserH with
        | none => (([] : List Symbol), (getParser env st lang).state)
        | some parserH =>
          match parserH content with
          | none => ([], (getParser env st lang).state)
          | some rootNode =>
            (walkTree content filePath lang
              ((CLASS_NODE_TYPES.lookup lang).getD [])
              ((FUNCTION_NODE_TYPES.lookup lang).getD []) rootNode 0,
             (getParser env st lang).state)).1 =
        (match env lang with
          | none => ([] : List Symbol)
          | some parserH =>
            match parserH content with
            | none => []
            | some rootNode =>
              walkTree content filePath lang
                ((CLASS_NODE_TYPES.lookup lang).getD [])
                ((FUNCTION_NODE_TYPES.lookup lang).getD []) rootNode 0)) ∧
      cacheConsistent env
        (match (getParser env st lang).parserH with
          | none => (([] : List Symbol), (getParser env st lang).state)
          | some parserH =>
            match parserH content with
            | none => ([], (getParser env st lang).state)
            | some rootNode =>
              (walkTree content filePath lang
                ((CLASS_NODE_TYPES.lookup lang).getD [])
                ((FUNCTION_NODE_TYPES.lookup lang).getD []) rootNode 0,
               (getParser env st lang).state)).2 := by
    intro lang
    have hp := getParser_consistent env st lang h
    have inner : ∀ o : Option TSNode,
        ((match o with
          | none => (([] : List Symbol), (getParser env st lang).state)
          | some rootNode =>
            (walkTree content filePath lang
              ((CLASS_NODE_TYPES.lookup lang).getD [])
              ((FUNCTION_NODE_TYPES.lookup lang).getD []) rootNode 0,
             (getParser env st lang).state)).1 =
         (match o with
          | none => ([] : List Symbol)
          | some rootNode =>
            walkTree content filePath lang
              ((CLASS_NODE_TYPES.lookup lang).getD [])
              ((FUNCTION_NODE_TYPES.lookup lang).getD []) rootNode 0)) ∧
        cacheConsistent env
          (match o with
            | none => (([] : List Symbol), (getParser env st lang).state)
            | some rootNode =>
              (walkTree content filePath lang
                ((CLASS_NODE_TYPES.lookup lang).getD [])
                ((FUNCTION_NODE_TYPES.lookup lang).getD []) rootNode 0,
               (getParser env st lang).state)).2 := by
      intro o
      cases o with
      | none => exact ⟨rfl, hp.2⟩
      | some rootNode => exact ⟨rfl, hp.2⟩
    rw [hp.1]
    cases he : env lang with
    | none => exact ⟨rfl, hp.2⟩
    | some parserH => exact inner (parserH content)
  unfold extractSymbols extractSymbolsPure
  cases hr : resolveLanguage filePath language? with
  | none => exact ⟨rfl, h⟩
  | some lang => exact key lang

/-- Helper: under a consistent cache, `extract_from_files` computes the
cache-free batch semantics and keeps the cache consistent. -/
theorem extractFromFiles_consistent (env : GrammarEnv)
    (files : List (String × String)) (exclude_tests : Bool) :
    ∀ st, cacheConsistent env st →
      (extractFromFiles env st files exclude_tests).1 =
        extractFromFilesPure env files exclude_tests ∧
      cacheConsistent env
        (extractFromFiles env st files exclude_tests).2 := by
  induction files with
  | nil =>
    intro st h
    exact ⟨rfl, h⟩
  | cons pc rest ih =>
    intro st h
    obtain ⟨path, content⟩ := pc
    by_cases hT : (exclude_tests && isTestFile path) = true
    · simp only [extractFromFiles, extractFromFilesPure, hT, if_true]
      exact ih st h
    · rw [Bool.not_eq_true] at hT
      simp only [extractFromFiles, extractFromFilesPure, hT,
        Bool.false_eq_true, if_false]
      have h1 := extractSymbols_consistent env st content path none h
      have h2 := ih (extractSymbols env st content path none).2 h1.2
      exact ⟨by rw [h1.1, h2.1], h2.2⟩

/-- C9: extraction is deterministic — running `extract_from_files` twice
on the same ASTParser instance (the second run starting from the cache the
first run produced), with the same file map in the same order and the same
flag, yields the identical symbol sequence, for any initial cache
consistent with the grammar library (e.g. the fresh empty cache). -/
theorem extraction_deterministic (env : GrammarEnv)
    (files : List (String × String)) (exclude_tests : Bool)
    (st : ParserState) (h : cacheConsistent env st) :
    (extractFromFiles env st files exclude_tests).1 =
      (extractFromFiles env
        (extractFromFiles env st files exclude_tests).2
        files exclude_tests).1 := by
  have h1 := extractFromFiles_consistent env files exclude_tests st h
  have h2 := extractFromFiles_consistent env files exclude_tests
    (extractFromFiles env st files exclude_tests).2 h1.2
  rw [h1.1, h2.1]

/-- Witness for C9: re-running the demo extraction on the warm cache
produced by the first run yields the identical output. -/
theorem extraction_deterministic_witness :
    (extractFromFiles envDemo ⟨[]⟩ demoFiles true).1 =
      (extractFromFiles envDemo
        (extractFromFiles envDemo ⟨[]⟩ demoFiles true).2
        demoFiles true).1 :=
  extraction_deterministic envDemo demoFiles true ⟨[]⟩
    (cacheConsistent_empty envDemo)

end Gitsplain
